import Mathlib

/-!
Verification of the range-splicing and conditional-selection core of the
`lvsfunc` library (`lvsfunc/misc.py`).

Clips are modelled as Lean lists of frames (an arbitrary type `α`).  The
VapourSynth slicing operator `clip[a:b]` follows Python slice semantics
(negative indices wrap, out-of-bounds indices clamp) and then issues a
`Trim` call, which fails on an empty result; `clip_x + clip_y` is `Splice`,
i.e. list append.  Fallible operations return `Except String`.
-/

namespace LvsFunc

/-- Python slice-index normalization `slice.indices` for one endpoint:
a negative index counts from the end (clamped below at 0), a non-negative
index is clamped above at the length. -/
def pyIdx (i : Int) (n : Nat) : Nat :=
  if i < 0 then ((n : Int) + i).toNat else min i.toNat n

/-- VapourSynth clip slicing `xs[a:b]` (step 1): normalize both endpoints
with Python clamping, then `Trim`, which errors when the requested range is
empty (VapourSynth clips cannot be empty). -/
def vsSlice (xs : List α) (a b : Int) : Except String (List α) :=
  if pyIdx a xs.length < pyIdx b xs.length then
    .ok ((xs.drop (pyIdx a xs.length)).take (pyIdx b xs.length - pyIdx a xs.length))
  else .error "Trim: invalid range"

/-- A range entry of `replace_ranges`: either a single frame index or an
inclusive `(start, end)` pair, exactly as in the Python signature
`List[Union[int, Tuple[int, int]]]`. -/
inductive PyRange where
  | single : Int → PyRange
  | pair : Int → Int → PyRange
deriving DecidableEq, Repr

/-- Normalization performed by the loop body of `replace_ranges`: a tuple is
unpacked as `(start, end)`, a single integer `r` becomes `(r, r)`. -/
def PyRange.bounds : PyRange → Int × Int
  | .single n => (n, n)
  | .pair s e => (s, e)

/-- One iteration of the loop of `replace_ranges` (misc.py:103-114):
`tmp = clip_b[start:end+1]`; if `start != 0` prepend `out[:start]`;
if `end < out.num_frames - 1` append `out[end+1:]`. -/
def rangeStep (clip_b out : List α) (r : PyRange) : Except String (List α) :=
  match vsSlice clip_b r.bounds.1 (r.bounds.2 + 1) with
  | .error msg => .error msg
  | .ok tmp0 =>
    match (if r.bounds.1 ≠ 0 then
            Except.map (fun pre => pre ++ tmp0) (vsSlice out 0 r.bounds.1)
          else .ok tmp0) with
    | .error msg => .error msg
    | .ok tmp1 =>
      if r.bounds.2 < (out.length : Int) - 1 then
        Except.map (fun suf => tmp1 ++ suf)
          (vsSlice out (r.bounds.2 + 1) (out.length : Int))
      else .ok tmp1

/-- The function `replace_ranges` of misc.py: fold the loop body over the
supplied ranges in order, the working clip initialized to `clip_a`. -/
def replace_ranges (clip_a clip_b : List α) (ranges : List PyRange) :
    Except String (List α) :=
  ranges.foldlM (rangeStep clip_b) clip_a

/-- Modelled from the spec: one step of the documented RangeSplicer
algorithm (spec §4.1) in terms of `take`/`drop` — extract
`replacement[start : end+1]`, prepend `working[0 : start]`, append
`working[end+1 :]` (the conditional guards of the spec coincide with
`take 0 = []` and `drop past-the-end = []`). -/
def spliceStep (w repl : List α) (s e : Nat) : List α :=
  w.take s ++ (repl.drop s).take (e + 1 - s) ++ w.drop (e + 1)

/-- Modelled from the spec: the documented sequential fold of RangeSplicer
(spec §4.1), processing ranges in the order supplied over a running working
sequence initialized to `base`. -/
def spliceFoldSpec (base repl : List α) (ranges : List PyRange) : List α :=
  ranges.foldl (fun w r => spliceStep w repl r.bounds.1.toNat r.bounds.2.toNat) base

/-- In-bounds predicate for a range against a sequence length `n`:
`0 ≤ start ≤ end ≤ n - 1`. -/
def inBoundsRange (n : Nat) (r : PyRange) : Prop :=
  0 ≤ r.bounds.1 ∧ r.bounds.1 ≤ r.bounds.2 ∧ r.bounds.2 < (n : Int)

instance (n : Nat) (r : PyRange) : Decidable (inBoundsRange n r) := by
  unfold inBoundsRange; infer_instance

/-- Two ranges do not overlap when one ends strictly before the other
starts. -/
def rangesDisjoint (r r' : PyRange) : Prop :=
  r.bounds.2 < r'.bounds.1 ∨ r'.bounds.2 < r.bounds.1

instance (r r' : PyRange) : Decidable (rangesDisjoint r r') := by
  unfold rangesDisjoint; infer_instance

/-- Index `i` is covered by some range of the list. -/
def coveredBy (ranges : List PyRange) (i : Nat) : Prop :=
  ∃ r ∈ ranges, r.bounds.1.toNat ≤ i ∧ i ≤ r.bounds.2.toNat

instance (ranges : List PyRange) (i : Nat) : Decidable (coveredBy ranges i) := by
  unfold coveredBy; infer_instance

lemma pyIdx_eq_toNat {i : Int} {n : Nat} (h0 : 0 ≤ i) (h : i ≤ (n : Int)) :
    pyIdx i n = i.toNat := by
  unfold pyIdx; split <;> omega

lemma vsSlice_ok (xs : List α) {a b : Int} (h0 : 0 ≤ a) (hab : a < b)
    (hb : b ≤ (xs.length : Int)) :
    vsSlice xs a b = .ok ((xs.drop a.toNat).take (b.toNat - a.toNat)) := by
  unfold vsSlice
  rw [pyIdx_eq_toNat h0 (le_trans hab.le hb), pyIdx_eq_toNat (by omega) hb,
    if_pos (by omega)]

lemma rangeStep_ok (clip_b out : List α) (r : PyRange)
    (hlen : clip_b.length = out.length)
    (hin : inBoundsRange out.length r) :
    rangeStep clip_b out r
      = .ok (spliceStep out clip_b r.bounds.1.toNat r.bounds.2.toNat) := by
  obtain ⟨h0, hse, hend⟩ := hin
  have he0 : (0 : Int) ≤ r.bounds.2 := le_trans h0 hse
  have hmain : vsSlice clip_b r.bounds.1 (r.bounds.2 + 1)
      = .ok ((clip_b.drop r.bounds.1.toNat).take
          ((r.bounds.2 + 1).toNat - r.bounds.1.toNat)) :=
    vsSlice_ok _ h0 (by omega) (by rw [hlen]; omega)
  have htn : (r.bounds.2 + 1).toNat = r.bounds.2.toNat + 1 := by omega
  have hfull : (out.drop (r.bounds.2.toNat + 1)).take
      (out.length - (r.bounds.2.toNat + 1)) = out.drop (r.bounds.2.toNat + 1) :=
    List.take_of_length_le (by simp [List.length_drop])
  unfold rangeStep
  rw [hmain]
  dsimp only
  by_cases hs0 : r.bounds.1 = 0
  · simp only [hs0, ne_eq, not_true_eq_false, if_false, Int.toNat_zero]
    by_cases he1 : r.bounds.2 < (out.length : Int) - 1
    · rw [if_pos he1, vsSlice_ok out (by omega) (by omega) (by omega)]
      simp only [Except.map, htn, Int.toNat_natCast, hfull]
      simp [spliceStep, hs0]
    · rw [if_neg he1]
      have hnil : out.drop (r.bounds.2.toNat + 1) = [] :=
        List.drop_eq_nil_of_le (by omega)
      simp [spliceStep, hs0, htn, hnil]
  · rw [if_pos hs0, vsSlice_ok out (le_refl 0) (by omega) (by omega)]
    simp only [Except.map, Int.toNat_zero, List.drop_zero, Nat.sub_zero]
    by_cases he1 : r.bounds.2 < (out.length : Int) - 1
    · rw [if_pos he1, vsSlice_ok out (by omega) (by omega) (by omega)]
      simp only [Except.map, htn, Int.toNat_natCast, hfull]
      simp [spliceStep, List.append_assoc]
    · rw [if_neg he1]
      have hnil : out.drop (r.bounds.2.toNat + 1) = [] :=
        List.drop_eq_nil_of_le (by omega)
      simp [spliceStep, htn, hnil]

lemma spliceStep_length {w repl : List α} {s e : Nat} (hse : s ≤ e)
    (he : e < w.length) (hr : repl.length = w.length) :
    (spliceStep w repl s e).length = w.length := by
  simp [spliceStep, List.length_append, List.length_take, List.length_drop]
  omega

lemma replace_fold_spec (clip_b : List α) (ranges : List PyRange) :
    ∀ (out : List α), clip_b.length = out.length →
      (∀ r ∈ ranges, inBoundsRange out.length r) →
      ranges.foldlM (rangeStep clip_b) out = .ok (spliceFoldSpec out clip_b ranges)
      ∧ (spliceFoldSpec out clip_b ranges).length = out.length := by
  induction ranges with
  | nil => intro out _ _; exact ⟨rfl, rfl⟩
  | cons r rs ih =>
      intro out hlen hin
      have hr := hin r (List.mem_cons_self r rs)
      have hstep := rangeStep_ok clip_b out r hlen hr
      obtain ⟨h0, hse, hend⟩ := hr
      have hlen' : (spliceStep out clip_b r.bounds.1.toNat r.bounds.2.toNat).length
          = out.length :=
        spliceStep_length (by omega) (by omega) hlen
      have hin' : ∀ r' ∈ rs,
          inBoundsRange (spliceStep out clip_b r.bounds.1.toNat r.bounds.2.toNat).length r' := by
        intro r' hr'
        rw [hlen']
        exact hin r' (List.mem_cons_of_mem _ hr')
      have := ih (spliceStep out clip_b r.bounds.1.toNat r.bounds.2.toNat)
        (hlen.trans hlen'.symm) hin'
      refine ⟨?_, ?_⟩
      · show List.foldlM _ _ _ = _
        rw [List.foldlM_cons, hstep]
        show Except.bind _ _ = _
        rw [Except.bind]
        exact this.1
      · show (spliceFoldSpec _ _ _).length = _
        unfold spliceFoldSpec at this ⊢
        rw [List.foldl_cons]
        exact this.2.trans hlen'

lemma spliceStep_getElem? {w repl : List α} {s e : Nat} (hse : s ≤ e)
    (he : e < w.length) (hr : repl.length = w.length) (i : Nat) :
    (spliceStep w repl s e)[i]? = if s ≤ i ∧ i ≤ e then repl[i]? else w[i]? := by
  unfold spliceStep
  have hlA : (w.take s).length = s := by simp [List.length_take]; omega
  have hlB : ((repl.drop s).take (e + 1 - s)).length = e + 1 - s := by
    simp [List.length_take, List.length_drop]; omega
  have hlAB : (w.take s ++ (repl.drop s).take (e + 1 - s)).length = e + 1 := by
    rw [List.length_append, hlA, hlB]; omega
  by_cases h1 : i < s
  · rw [List.getElem?_append, hlAB, if_pos (by omega), List.getElem?_append, hlA,
      if_pos h1, List.getElem?_take, if_pos h1, if_neg (by omega)]
  · by_cases h2 : i ≤ e
    · rw [List.getElem?_append, hlAB, if_pos (by omega), List.getElem?_append, hlA,
        if_neg h1, List.getElem?_take, if_pos (by omega),
        List.getElem?_drop, if_pos (by omega)]
      congr 1
      omega
    · rw [List.getElem?_append, hlAB, if_neg (by omega),
        List.getElem?_drop, if_neg (by omega)]
      congr 1
      omega

lemma coveredBy_cons {r : PyRange} {rs : List PyRange} {i : Nat} :
    coveredBy (r :: rs) i
      ↔ (r.bounds.1.toNat ≤ i ∧ i ≤ r.bounds.2.toNat) ∨ coveredBy rs i := by
  simp [coveredBy]

lemma spliceFoldSpec_getElem? (clip_b : List α) (ranges : List PyRange) :
    ∀ (out : List α), clip_b.length = out.length →
      (∀ r ∈ ranges, inBoundsRange out.length r) → ∀ i : Nat,
      (spliceFoldSpec out clip_b ranges)[i]?
        = if coveredBy ranges i then clip_b[i]? else out[i]? := by
  induction ranges with
  | nil =>
      intro out hlen hin i
      have : ¬ coveredBy ([] : List PyRange) i := by simp [coveredBy]
      rw [if_neg this]
      rfl
  | cons r rs ih =>
      intro out hlen hin i
      obtain ⟨h0, hse, hend⟩ := hin r (List.mem_cons_self r rs)
      have hstep := @spliceStep_getElem? _ out clip_b r.bounds.1.toNat
        r.bounds.2.toNat (by omega) (by omega) hlen i
      have hlen' : (spliceStep out clip_b r.bounds.1.toNat r.bounds.2.toNat).length
          = out.length := spliceStep_length (by omega) (by omega) hlen
      have hin' : ∀ r' ∈ rs,
          inBoundsRange (spliceStep out clip_b r.bounds.1.toNat r.bounds.2.toNat).length r' :=
        fun r' hr' => hlen' ▸ hin r' (List.mem_cons_of_mem _ hr')
      have hrec := ih (spliceStep out clip_b r.bounds.1.toNat r.bounds.2.toNat)
        (hlen.trans hlen'.symm) hin' i
      unfold spliceFoldSpec at hrec ⊢
      rw [List.foldl_cons, hrec, hstep]
      by_cases hc : coveredBy rs i
      · rw [if_pos hc, if_pos (coveredBy_cons.mpr (Or.inr hc))]
      · rw [if_neg hc]
        by_cases hcr : r.bounds.1.toNat ≤ i ∧ i ≤ r.bounds.2.toNat
        · rw [if_pos hcr, if_pos (coveredBy_cons.mpr (Or.inl hcr))]
        · rw [if_neg hcr, if_neg (fun h => (coveredBy_cons.mp h).elim hcr hc)]

lemma pyIdx_zero (n : Nat) : pyIdx 0 n = 0 := by
  unfold pyIdx; split <;> omega

lemma pyIdx_len (n : Nat) : pyIdx (n : Int) n = n := by
  unfold pyIdx; split <;> omega

lemma pyIdx_suffix_lt {e : Int} {n : Nat} (hn : 0 < n) (he1 : e < (n : Int) - 1) :
    pyIdx (e + 1) n < n := by
  unfold pyIdx; split <;> omega

lemma rangeStep_isOk (clip_b out : List α) (s e : Int) (hne : 0 < out.length) :
    (rangeStep clip_b out (.pair s e)).isOk = true
      ↔ (pyIdx s clip_b.length < pyIdx (e + 1) clip_b.length
          ∧ (s = 0 ∨ 0 < pyIdx s out.length)) := by
  unfold rangeStep
  dsimp only [PyRange.bounds]
  unfold vsSlice
  by_cases h1 : pyIdx s clip_b.length < pyIdx (e + 1) clip_b.length
  · rw [if_pos h1]
    dsimp only
    by_cases hs0 : s = 0
    · subst hs0
      rw [if_neg (by simp)]
      dsimp only
      by_cases he1 : e < (out.length : Int) - 1
      · rw [if_pos he1, if_pos (by rw [pyIdx_len]; exact pyIdx_suffix_lt hne he1)]
        simp [Except.map, Except.isOk, Except.toBool, h1]
      · rw [if_neg he1]
        simp [Except.isOk, Except.toBool, h1]
    · rw [if_pos hs0]
      by_cases hp : pyIdx 0 out.length < pyIdx s out.length
      · rw [if_pos hp]
        dsimp only [Except.map]
        by_cases he1 : e < (out.length : Int) - 1
        · rw [if_pos he1, if_pos (by rw [pyIdx_len]; exact pyIdx_suffix_lt hne he1)]
          simp only [Except.map, Except.isOk, Except.toBool]
          rw [pyIdx_zero] at hp
          simp [h1, hp]
        · rw [if_neg he1]
          simp only [Except.isOk, Except.toBool]
          rw [pyIdx_zero] at hp
          simp [h1, hp]
      · rw [if_neg hp]
        dsimp only [Except.map]
        simp only [Except.isOk, Except.toBool]
        rw [pyIdx_zero] at hp
        simp only [Bool.false_eq_true, false_iff]
        intro hcon
        exact absurd (hcon.2.elim (fun h => absurd h hs0) id) hp
  · rw [if_neg h1]
    dsimp only
    simp [Except.isOk, Except.toBool, h1]

/-- Claim C1: `replace_ranges` implements the documented sequential fold —
processing ranges in the order supplied, with the working sequence
initialized to the base: each range replaces the covered segment by
`replacement[start : end+1]`, prepending the current working prefix and
appending the current working suffix; concretely, for base `[0..9]`,
replacement `[100..109]` and ranges `[(0,5), (3,8)]` the result is
`[100,101,102,103,104,105,106,107,108,9]`. -/
theorem replace_ranges_sequential_fold :
    (∀ (α : Type) (base repl : List α) (ranges : List PyRange),
        repl.length = base.length →
        (∀ r ∈ ranges, inBoundsRange base.length r) →
        replace_ranges base repl ranges = .ok (spliceFoldSpec base repl ranges))
    ∧ replace_ranges [0,1,2,3,4,5,6,7,8,9]
        [100,101,102,103,104,105,106,107,108,109]
        [PyRange.pair 0 5, PyRange.pair 3 8]
      = .ok [100,101,102,103,104,105,106,107,108,9] := by
  constructor
  · intro α base repl ranges hlen hin
    exact (replace_fold_spec repl ranges base hlen hin).1
  · rfl

/-- Witness for C1 at a concrete input: the refinement theorem applied to
base `[0..3]`, replacement `[10..13]` and the single range `(1, 2)`. -/
theorem replace_ranges_sequential_fold_witness :
    replace_ranges [0,1,2,3] [(10:ℕ),11,12,13] [PyRange.pair 1 2]
      = .ok (spliceFoldSpec [0,1,2,3] [10,11,12,13] [PyRange.pair 1 2]) :=
  replace_ranges_sequential_fold.1 ℕ [0,1,2,3] [10,11,12,13]
    [PyRange.pair 1 2] rfl (by decide)

/-- Claim C2: for equal-length base and replacement and two in-bounds,
pairwise non-overlapping range lists that are permutations of each other,
`replace_ranges` produces the same output for both orders. -/
theorem replace_ranges_nonoverlap_order_independent :
    ∀ (α : Type) (base repl : List α) (rs1 rs2 : List PyRange),
      repl.length = base.length →
      List.Perm rs1 rs2 →
      (∀ r ∈ rs1, inBoundsRange base.length r) →
      rs1.Pairwise rangesDisjoint →
      replace_ranges base repl rs1 = replace_ranges base repl rs2 := by
  intro α base repl rs1 rs2 hlen hperm hin _hdisj
  have hin2 : ∀ r ∈ rs2, inBoundsRange base.length r :=
    fun r hr => hin r (hperm.symm.subset hr)
  have e1 := (replace_fold_spec repl rs1 base hlen hin).1
  have e2 := (replace_fold_spec repl rs2 base hlen hin2).1
  unfold replace_ranges
  rw [e1, e2]
  congr 1
  apply List.ext_getElem?
  intro i
  rw [spliceFoldSpec_getElem? repl rs1 base hlen hin i,
    spliceFoldSpec_getElem? repl rs2 base hlen hin2 i]
  by_cases hc : coveredBy rs1 i
  · obtain ⟨r, hr, hb⟩ := hc
    rw [if_pos ⟨r, hr, hb⟩, if_pos ⟨r, hperm.subset hr, hb⟩]
  · rw [if_neg hc, if_neg (fun ⟨r, hr, hb⟩ => hc ⟨r, hperm.symm.subset hr, hb⟩)]

/-- Witness for C2: two disjoint in-bounds ranges applied in either order to
a concrete base/replacement pair. -/
theorem replace_ranges_nonoverlap_order_independent_witness :
    replace_ranges [0,1,2,3] [(10:ℕ),11,12,13] [PyRange.pair 0 0, PyRange.pair 2 3]
      = replace_ranges [0,1,2,3] [10,11,12,13] [PyRange.pair 2 3, PyRange.pair 0 0] :=
  replace_ranges_nonoverlap_order_independent ℕ [0,1,2,3] [10,11,12,13]
    [PyRange.pair 0 0, PyRange.pair 2 3] [PyRange.pair 2 3, PyRange.pair 0 0]
    rfl (by decide) (by decide) (by decide)

/-- Claim C3: for equal-length base and replacement and every range list
whose ranges are all in bounds, `replace_ranges` succeeds and its output has
exactly the length of the base sequence. -/
theorem replace_ranges_length_preserved :
    ∀ (α : Type) (base repl : List α) (ranges : List PyRange),
      repl.length = base.length →
      (∀ r ∈ ranges, inBoundsRange base.length r) →
      ∃ out, replace_ranges base repl ranges = .ok out ∧ out.length = base.length := by
  intro α base repl ranges hlen hin
  exact ⟨spliceFoldSpec base repl ranges, (replace_fold_spec repl ranges base hlen hin).1,
    (replace_fold_spec repl ranges base hlen hin).2⟩

/-- Witness for C3: a single-frame range on a length-3 base. -/
theorem replace_ranges_length_preserved_witness :
    ∃ out, replace_ranges [0,1,2] [(7:ℕ),8,9] [PyRange.single 1] = .ok out
      ∧ out.length = 3 :=
  replace_ranges_length_preserved ℕ [0,1,2] [7,8,9] [PyRange.single 1] rfl (by decide)

/-- Counterexample to claim C4 as stated: the range `(5, 15)` has its end
outside `[0, 9]` for a base of length 10, yet `replace_ranges` raises no
error — the replacement slice is silently clamped to the end of the clip. -/
theorem replace_ranges_oob_end_no_error :
    replace_ranges [0,1,2,3,4,5,6,7,8,9]
      [100,101,102,103,104,105,106,107,108,109] [PyRange.pair 5 15]
      = .ok [0,1,2,3,4,105,106,107,108,109]
    ∧ ¬ inBoundsRange 10 (PyRange.pair 5 15) :=
  ⟨rfl, by decide⟩

/-- Claim C4, amended: processing a range `(start, end)` fails (with the
engine's trim error) iff the replacement slice `clip_b[start : end+1]` is
empty after Python index clamping, or `start ≠ 0` while the prefix slice
`out[: start]` is empty (i.e. `start ≤ -len`); when a range fails, the whole
fold fails at that point.  In particular `start > end` or `start ≥ len`
fails, while an `end` beyond `len - 1` alone is clamped, not an error. -/
theorem replace_ranges_error_iff_empty_slice :
    ∀ (α : Type) (clip_a clip_b : List α) (s e : Int) (rs : List PyRange),
      0 < clip_a.length →
      (((rangeStep clip_b clip_a (PyRange.pair s e)).isOk = false)
        ↔ (pyIdx (e + 1) clip_b.length ≤ pyIdx s clip_b.length
            ∨ (s ≠ 0 ∧ pyIdx s clip_a.length = 0)))
      ∧ ((rangeStep clip_b clip_a (PyRange.pair s e)).isOk = false →
          (replace_ranges clip_a clip_b (PyRange.pair s e :: rs)).isOk = false) := by
  intro α a b s e rs hne
  constructor
  · have h := rangeStep_isOk b a s e hne
    constructor
    · intro hfalse
      have : ¬ ((rangeStep b a (.pair s e)).isOk = true) := by simp [hfalse]
      rw [h] at this
      omega
    · intro hcond
      cases hok : (rangeStep b a (.pair s e)).isOk with
      | false => rfl
      | true => exact absurd (h.mp hok) (by omega)
  · intro hfalse
    cases hrs : rangeStep b a (.pair s e) with
    | ok val => rw [hrs] at hfalse; simp [Except.isOk, Except.toBool] at hfalse
    | error msg =>
        unfold replace_ranges
        rw [List.foldlM_cons, hrs]
        rfl

/-- Witness for C4 (amended): the reversed range `(2, 1)` produces an empty
replacement slice, so the fold fails at that range. -/
theorem replace_ranges_error_iff_empty_slice_witness :
    (replace_ranges [0,1,2] [(3:ℕ),4,5] [PyRange.pair 2 1]).isOk = false := by
  have h := replace_ranges_error_iff_empty_slice ℕ [0,1,2] [3,4,5] 2 1 [] (by decide)
  exact h.2 (h.1.mpr (by decide))

/-- Python truthiness of the `threshold_range` argument: `None` and the
number `0` are falsy, any other number is truthy (`limit_dark` tests the
argument with `if threshold_range:` / `if threshold_range and ...`). -/
def pyTruthy : Option ℚ → Bool
  | none => false
  | some x => decide (x ≠ 0)

/-- The per-frame callback `_diff` of `limit_dark` (misc.py:187-191),
applied to the frame's `PlaneStatsAverage` value `avg`: when
`threshold_range` is truthy, return the filtered frame iff
`threshold_range <= avg <= threshold`; otherwise return the original frame
when `avg > threshold`, the filtered frame when not. -/
def limit_dark_diff (avg : ℚ) (clip filtered : α) (threshold : ℚ)
    (threshold_range : Option ℚ) : α :=
  if pyTruthy threshold_range then
    if threshold_range.getD 0 ≤ avg ∧ avg ≤ threshold then filtered else clip
  else
    if threshold < avg then clip else filtered

/-- The `FrameEval` wiring of `limit_dark` (misc.py:196-197): frame `n` of
the output is frame `n` of whichever clip `_diff` returns for the
`PlaneStatsAverage` metric of frame `n` of the input clip. -/
def limit_dark_frames (threshold : ℚ) (threshold_range : Option ℚ) :
    List α → List α → List ℚ → List α
  | c :: cs, f :: fs, m :: ms =>
      limit_dark_diff m c f threshold threshold_range
        :: limit_dark_frames threshold threshold_range cs fs ms
  | _, _, _ => []

/-- The function `limit_dark` of misc.py: raise the configuration
`ValueError` when `threshold_range` is truthy and exceeds `threshold`
(misc.py:193-194), otherwise produce the per-frame conditional selection;
`metrics` stands for the `PlaneStatsAverage` sequence that the external
`core.std.PlaneStats(clip)` call provides for the input clip. -/
def limit_dark (clip filtered : List α) (metrics : List ℚ) (threshold : ℚ)
    (threshold_range : Option ℚ) : Except String (List α) :=
  if pyTruthy threshold_range = true ∧ threshold < threshold_range.getD 0 then
    .error "limit_dark: threshold_range must be a lower value than threshold"
  else
    .ok (limit_dark_frames threshold threshold_range clip filtered metrics)

instance {ε γ : Type _} [DecidableEq ε] [DecidableEq γ] : DecidableEq (Except ε γ) :=
  fun a b =>
    match a, b with
    | .ok x, .ok y =>
        if h : x = y then .isTrue (by rw [h]) else .isFalse (by simp [h])
    | .error x, .error y =>
        if h : x = y then .isTrue (by rw [h]) else .isFalse (by simp [h])
    | .ok _, .error _ => .isFalse (by simp)
    | .error _, .ok _ => .isFalse (by simp)

lemma limit_dark_frames_getElem? (threshold : ℚ) (tr : Option ℚ) :
    ∀ (n : Nat) (clip filtered : List α) (metrics : List ℚ) (cv fv : α) (mv : ℚ),
      clip[n]? = some cv → filtered[n]? = some fv → metrics[n]? = some mv →
      (limit_dark_frames threshold tr clip filtered metrics)[n]?
        = some (limit_dark_diff mv cv fv threshold tr) := by
  intro n
  induction n with
  | zero =>
      intro clip filtered metrics cv fv mv hc hf hm
      cases clip with
      | nil => simp at hc
      | cons c cs =>
          cases filtered with
          | nil => simp at hf
          | cons f fs =>
              cases metrics with
              | nil => simp at hm
              | cons m ms =>
                  simp only [List.getElem?_cons_zero, Option.some.injEq] at hc hf hm
                  subst hc; subst hf; subst hm
                  simp [limit_dark_frames]
  | succ k ih =>
      intro clip filtered metrics cv fv mv hc hf hm
      cases clip with
      | nil => simp at hc
      | cons c cs =>
          cases filtered with
          | nil => simp at hf
          | cons f fs =>
              cases metrics with
              | nil => simp at hm
              | cons m ms =>
                  simp only [List.getElem?_cons_succ] at hc hf hm
                  simp only [limit_dark_frames, List.getElem?_cons_succ]
                  exact ih cs fs ms cv fv mv hc hf hm

/-- Counterexample to claim C5 as stated: with `threshold_range` absent,
metric 2 and threshold 1, the metric exceeds the threshold yet `limit_dark`
emits the primary (unfiltered) element 10, not the secondary/filtered
element 20. -/
theorem limit_dark_polarity_counterexample :
    limit_dark [10] [(20:ℕ)] [2] 1 none = .ok [10] ∧ (1:ℚ) < 2 ∧ (10:ℕ) ≠ 20 :=
  ⟨rfl, by norm_num, by decide⟩

/-- Claim C5, amended: with `threshold_range` absent the polarity is the
reverse of the claim — `limit_dark` emits the primary element at `n` when
`metrics[n] > threshold`, and the secondary/filtered element otherwise. -/
theorem limit_dark_no_range_polarity :
    ∀ (α : Type) (clip filtered : List α) (metrics : List ℚ) (threshold mv : ℚ)
      (n : Nat) (cv fv : α),
      clip[n]? = some cv → filtered[n]? = some fv → metrics[n]? = some mv →
      ∃ out, limit_dark clip filtered metrics threshold none = .ok out ∧
        out[n]? = some (if threshold < mv then cv else fv) := by
  intro α clip filtered metrics θ mv n cv fv hc hf hm
  have hok : limit_dark clip filtered metrics θ none
      = .ok (limit_dark_frames θ none clip filtered metrics) := by
    unfold limit_dark
    rw [if_neg (by rintro ⟨h, _⟩; simp [pyTruthy] at h)]
  refine ⟨limit_dark_frames θ none clip filtered metrics, hok, ?_⟩
  rw [limit_dark_frames_getElem? θ none n clip filtered metrics cv fv mv hc hf hm]
  unfold limit_dark_diff
  rw [if_neg (by simp [pyTruthy])]

/-- Witness for C5 (amended): metric 2 against threshold 1 selects the
primary element. -/
theorem limit_dark_no_range_polarity_witness :
    ∃ out, limit_dark [10] [(20:ℕ)] [2] 1 none = .ok out ∧
      out[0]? = some (if (1:ℚ) < 2 then 10 else 20) :=
  limit_dark_no_range_polarity ℕ [10] [20] [2] 1 2 0 10 20 rfl rfl rfl

/-- Claim C6: with `threshold_range` absent, metrics `[0.1, 0.5, 0.9]` and
threshold `0.25`, `limit_dark` emits `[secondary, primary, primary]` — the
index with metric ≤ threshold yields the filtered element, the indices with
metric > threshold yield the primary elements. -/
theorem limit_dark_example_polarity :
    limit_dark [1,2,3] [(11:ℕ),12,13] [1/10, 1/2, 9/10] (1/4) none = .ok [11,2,3]
    ∧ (1/10 : ℚ) ≤ 1/4 ∧ (1/4 : ℚ) < 1/2 ∧ (1/4 : ℚ) < 9/10 := by
  have h1 : ¬((1:ℚ)/4 < 1/10) := by norm_num
  have h2 : ((1:ℚ)/4 < 1/2) := by norm_num
  have h3 : ((1:ℚ)/4 < 9/10) := by norm_num
  refine ⟨?_, by norm_num, h2, h3⟩
  simp [limit_dark, limit_dark_frames, limit_dark_diff, pyTruthy, h1, h2, h3]
  norm_num

/-- Claim C7: when `threshold_range` is present with value at most the
threshold (the valid configurations) and the metric is a PlaneStats average
(hence non-negative), `limit_dark` emits the secondary/filtered element at
`n` iff `threshold_range ≤ metrics[n] ≤ threshold`, and the primary element
otherwise. -/
theorem limit_dark_range_band :
    ∀ (α : Type) (clip filtered : List α) (metrics : List ℚ) (threshold x mv : ℚ)
      (n : Nat) (cv fv : α),
      clip[n]? = some cv → filtered[n]? = some fv → metrics[n]? = some mv →
      0 ≤ mv → x ≤ threshold →
      ∃ out, limit_dark clip filtered metrics threshold (some x) = .ok out ∧
        out[n]? = some (if x ≤ mv ∧ mv ≤ threshold then fv else cv) := by
  intro α clip filtered metrics θ x mv n cv fv hc hf hm hm0 hxθ
  have hok : limit_dark clip filtered metrics θ (some x)
      = .ok (limit_dark_frames θ (some x) clip filtered metrics) := by
    unfold limit_dark
    rw [if_neg (fun h => (not_lt.mpr hxθ) h.2)]
  refine ⟨limit_dark_frames θ (some x) clip filtered metrics, hok, ?_⟩
  rw [limit_dark_frames_getElem? θ (some x) n clip filtered metrics cv fv mv hc hf hm]
  unfold limit_dark_diff
  by_cases hx0 : x = 0
  · subst hx0
    rw [if_neg (by simp [pyTruthy])]
    by_cases hle : mv ≤ θ
    · rw [if_neg (not_lt.mpr hle), if_pos ⟨hm0, hle⟩]
    · rw [if_pos (lt_of_not_le hle), if_neg (fun h => hle h.2)]
  · rw [if_pos (by simp [pyTruthy, hx0])]
    simp only [Option.getD_some]

/-- Witness for C7: a metric inside the band selects the filtered
element. -/
theorem limit_dark_range_band_witness :
    ∃ out, limit_dark [1] [(11:ℕ)] [1/2] (3/4) (some (1/4)) = .ok out ∧
      out[0]? = some (if (1/4:ℚ) ≤ 1/2 ∧ (1/2:ℚ) ≤ 3/4 then 11 else 1) :=
  limit_dark_range_band ℕ [1] [11] [1/2] (3/4) (1/4) (1/2) 0 1 11 rfl rfl rfl
    (by norm_num) (by norm_num)

/-- Counterexample to claim C8 as stated: with `threshold_range = 0`
(present) and `threshold = -1`, `threshold_range > threshold` holds yet no
configuration error is raised — Python truthiness of `0` skips the check
and the frames are evaluated normally. -/
theorem limit_dark_zero_range_no_error :
    limit_dark [10] [(20:ℕ)] [1/2] (-1) (some 0) = .ok [10] ∧ (-1 : ℚ) < 0 := by
  have h : (-1:ℚ) < 1/2 := by norm_num
  refine ⟨?_, by norm_num⟩
  simp [limit_dark, limit_dark_frames, limit_dark_diff, pyTruthy, h]
  norm_num

/-- Claim C8, amended: `limit_dark` raises the configuration `ValueError`
iff `threshold_range` is present, numerically nonzero (truthy), and greater
than `threshold`; the check precedes all per-frame decisions, so when it
fires no output is produced. -/
theorem limit_dark_config_error_iff :
    ∀ (α : Type) (clip filtered : List α) (metrics : List ℚ) (threshold : ℚ)
      (tr : Option ℚ),
      (limit_dark clip filtered metrics threshold tr).isOk = false
        ↔ ∃ x, tr = some x ∧ x ≠ 0 ∧ threshold < x := by
  intro α clip filtered metrics θ tr
  unfold limit_dark
  by_cases h : pyTruthy tr = true ∧ θ < tr.getD 0
  · rw [if_pos h]
    simp only [Except.isOk, Except.toBool, true_iff]
    cases tr with
    | none => simp [pyTruthy] at h
    | some x =>
        refine ⟨x, rfl, ?_, h.2⟩
        have := h.1
        simpa [pyTruthy] using this
  · rw [if_neg h]
    constructor
    · intro hcon
      simp [Except.isOk, Except.toBool] at hcon
    · rintro ⟨x, rfl, hx0, hgt⟩
      exact absurd ⟨by simp [pyTruthy, hx0], hgt⟩ h

/-- Witness for C8 (amended): a nonzero `threshold_range` above the
threshold does raise the configuration error. -/
theorem limit_dark_config_error_iff_witness :
    (limit_dark [1] [(2:ℕ)] [1/2] (1/4) (some (3/4))).isOk = false :=
  (limit_dark_config_error_iff ℕ [1] [2] [1/2] (1/4) (some (3/4))).mpr
    ⟨3/4, rfl, by norm_num, by norm_num⟩

/-- Claim C10: passing `threshold_range = 0` (numerically falsy) makes
`limit_dark` behave exactly as if it were absent — the configuration check
is skipped (no error for any threshold, negative ones included) and every
frame is decided by the single-threshold rule, not the band rule. -/
theorem limit_dark_zero_range_as_absent :
    ∀ (α : Type) (clip filtered : List α) (metrics : List ℚ) (threshold : ℚ),
      limit_dark clip filtered metrics threshold (some 0)
        = limit_dark clip filtered metrics threshold none
      ∧ (limit_dark clip filtered metrics threshold (some 0)).isOk = true
      ∧ ∀ (avg : ℚ) (c f : α), limit_dark_diff avg c f threshold (some 0)
          = (if threshold < avg then c else f) := by
  intro α clip filtered metrics θ
  have hdiffeq : ∀ (avg : ℚ) (c f : α), limit_dark_diff avg c f θ (some 0)
      = (if θ < avg then c else f) := by
    intro avg c f
    unfold limit_dark_diff
    rw [if_neg (by simp [pyTruthy])]
  have hdiffnone : ∀ (avg : ℚ) (c f : α), limit_dark_diff avg c f θ none
      = (if θ < avg then c else f) := by
    intro avg c f
    unfold limit_dark_diff
    rw [if_neg (by simp [pyTruthy])]
  have hframes : ∀ (c f : List α) (ms : List ℚ),
      limit_dark_frames θ (some 0) c f ms = limit_dark_frames θ none c f ms := by
    intro c f ms
    induction c generalizing f ms with
    | nil => cases f <;> cases ms <;> rfl
    | cons ch ct ih =>
        cases f with
        | nil => cases ms <;> rfl
        | cons fh ft =>
            cases ms with
            | nil => rfl
            | cons mh mt =>
                simp only [limit_dark_frames]
                rw [ih, hdiffeq, hdiffnone]
  refine ⟨?_, ?_, hdiffeq⟩
  · unfold limit_dark
    rw [if_neg (by rintro ⟨h, _⟩; simp [pyTruthy] at h),
      if_neg (by rintro ⟨h, _⟩; simp [pyTruthy] at h), hframes]
  · unfold limit_dark
    rw [if_neg (by rintro ⟨h, _⟩; simp [pyTruthy] at h)]
    rfl

/-- The loop of the per-frame callback `_frames_since_bookmark`
(misc.py:274-284): iterate over the bookmarks; at the last bookmark set
`result = n - bookmark` when that is non-negative; at an earlier bookmark
set `result = n - bookmark` and break when the difference is non-negative
and the next bookmark lies beyond `n`.  The accumulator is the current
value of the Python variable `result`; `none` models it still unset (a
reference would be a NameError). -/
def fsbLoop (n : Int) : List Int → Option Int → Option Int
  | [], res => res
  | [b], res => if 0 ≤ n - b then some (n - b) else res
  | b :: b2 :: rest, res =>
      if 0 ≤ n - b ∧ n - b2 < 0 then some (n - b)
      else fsbLoop n (b2 :: rest) res

/-- The function `frames_since_bookmark` of misc.py, reduced to the number
it renders on frame `n` (the external `core.text.Text` overlay applies that
number to the clip). -/
def frames_since_bookmark (n : Int) (bookmarks : List Int) : Option Int :=
  fsbLoop n bookmarks none

lemma fsbLoop_spec (n : Int) :
    ∀ (bms : List Int) (res : Option Int) (h : Int),
      List.Sorted (· ≤ ·) bms → bms.head? = some h → h ≤ n →
      ∃ b, b ∈ bms ∧ b ≤ n ∧ (∀ b' ∈ bms, b' ≤ n → b' ≤ b) ∧
        fsbLoop n bms res = some (n - b) := by
  intro bms
  induction bms with
  | nil => intro res h _ hh _; simp at hh
  | cons b tail ih =>
      intro res h hsort hh hle
      simp only [List.head?_cons, Option.some.injEq] at hh
      subst hh
      rw [List.sorted_cons] at hsort
      obtain ⟨hball, hsort'⟩ := hsort
      cases tail with
      | nil =>
          refine ⟨b, List.mem_singleton.mpr rfl, hle, ?_, ?_⟩
          · intro b' hb' _
            rw [List.mem_singleton.mp hb']
          · show fsbLoop n [b] res = some (n - b)
            simp only [fsbLoop]
            rw [if_pos (by omega)]
      | cons b2 rest =>
          have hb2all : ∀ x ∈ rest, b2 ≤ x := by
            rw [List.sorted_cons] at hsort'
            exact hsort'.1
          by_cases hb2 : n - b2 < 0
          · refine ⟨b, List.mem_cons_self b _, hle, ?_, ?_⟩
            · intro b' hb' hb'n
              rcases List.mem_cons.mp hb' with rfl | hmem
              · exact le_refl b'
              · exfalso
                rcases List.mem_cons.mp hmem with rfl | hmem2
                · omega
                · have := hb2all b' hmem2
                  omega
            · show fsbLoop n (b :: b2 :: rest) res = some (n - b)
              simp only [fsbLoop]
              rw [if_pos ⟨by omega, hb2⟩]
          · have hb2n : b2 ≤ n := by omega
            obtain ⟨G, hGmem, hGle, hGmax, hGeq⟩ :=
              ih res b2 hsort' (by simp) hb2n
            refine ⟨G, List.mem_cons_of_mem _ hGmem, hGle, ?_, ?_⟩
            · intro b' hb' hb'n
              rcases List.mem_cons.mp hb' with rfl | hmem
              · exact le_trans (hball b2 (List.mem_cons_self b2 rest))
                  (hGmax b2 (List.mem_cons_self b2 rest) hb2n)
              · exact hGmax b' hmem hb'n
            · show fsbLoop n (b :: b2 :: rest) res = some (n - G)
              simp only [fsbLoop]
              rw [if_neg (by rintro ⟨_, hc⟩; omega)]
              exact hGeq

/-- Claim C9: for every non-decreasing bookmark list whose first element is
at most `n`, the frames-since value computed by `frames_since_bookmark` is
`n` minus the greatest bookmark `b` with `b ≤ n`; in particular
`since(7, [0,5,10]) = 2` and `since(12, [0,5,10]) = 2`. -/
theorem frames_since_bookmark_greatest :
    (∀ (bookmarks : List Int) (n h : Int),
        List.Sorted (· ≤ ·) bookmarks → bookmarks.head? = some h → h ≤ n →
        ∃ b, b ∈ bookmarks ∧ b ≤ n ∧ (∀ b' ∈ bookmarks, b' ≤ n → b' ≤ b) ∧
          frames_since_bookmark n bookmarks = some (n - b))
    ∧ frames_since_bookmark 7 [0,5,10] = some 2
    ∧ frames_since_bookmark 12 [0,5,10] = some 2 := by
  refine ⟨?_, by decide, by decide⟩
  intro bookmarks n h hsort hh hle
  exact fsbLoop_spec n bookmarks none h hsort hh hle

/-- Witness for C9: the greatest-bookmark characterization instantiated at
`n = 7` and bookmarks `[0, 5, 10]`. -/
theorem frames_since_bookmark_greatest_witness :
    ∃ b, b ∈ [(0:Int),5,10] ∧ b ≤ 7 ∧ (∀ b' ∈ [(0:Int),5,10], b' ≤ 7 → b' ≤ b) ∧
      frames_since_bookmark 7 [0,5,10] = some (7 - b) :=
  frames_since_bookmark_greatest.1 [0,5,10] 7 0 (by decide) rfl (by decide)

end LvsFunc
